import Mathlib

/-!
Shallow embedding of the Hotel Booking MCP server (`mcp_server.py`) and of the
routing logic of the LangGraph workflow (`langgraph_agents.py`).

Python floats are modelled as rationals, Python lists as Lean lists, and the
three mutable module-level tables (HOTELS, ROOMS, BOOKINGS) as an explicit
`ServerState` threaded through the operations.  Date strings are handled the
way the Python code handles them: `datetime.strptime(s, "%Y-%m-%d")` is
modelled by `parseYMD`, the whole-day difference of two dates by the proleptic
Gregorian ordinal `toOrdinal` (the same day-count used by `datetime.date`),
and the raw lexicographic string comparisons of the conflict predicate by
Lean's lexicographic `String` order, which coincides with Python's.
-/

namespace HotelBooking

/-! ## Calendar arithmetic (model of Python `datetime` dates) -/

/-- The character for a decimal digit `n < 10`. -/
def digitChar (n : Nat) : Char := Char.ofNat (48 + n)

/-- Gregorian leap-year rule, as in Python `calendar.isleap`. -/
def isLeap (y : Nat) : Bool := y % 4 == 0 && (y % 100 != 0 || y % 400 == 0)

/-- Number of days of month `m` (1-12). -/
def monthLength (leap : Bool) (m : Nat) : Nat :=
  match m with
  | 1 => 31
  | 2 => if leap then 29 else 28
  | 3 => 31
  | 4 => 30
  | 5 => 31
  | 6 => 30
  | 7 => 31
  | 8 => 31
  | 9 => 30
  | 10 => 31
  | 11 => 30
  | 12 => 31
  | _ => 0

/-- Days in the year strictly before month `m` (1-12). -/
def daysBeforeMonth (leap : Bool) (m : Nat) : Nat :=
  let l : Nat := if leap then 1 else 0
  match m with
  | 1 => 0
  | 2 => 31
  | 3 => 59 + l
  | 4 => 90 + l
  | 5 => 120 + l
  | 6 => 151 + l
  | 7 => 181 + l
  | 8 => 212 + l
  | 9 => 243 + l
  | 10 => 273 + l
  | 11 => 304 + l
  | 12 => 334 + l
  | _ => 0

/-- Days strictly before January 1 of year `y`, as in `datetime._days_before_year`. -/
def daysBeforeYear (y : Nat) : Nat :=
  365 * (y - 1) + (y - 1) / 4 - (y - 1) / 100 + (y - 1) / 400

/-- Proleptic Gregorian ordinal of a date, as in `datetime.date.toordinal`:
the whole-day difference of two dates equals the difference of their ordinals. -/
def toOrdinal (y m d : Nat) : Nat :=
  daysBeforeYear y + daysBeforeMonth (isLeap y) m + d

/-- A valid (`datetime`-constructible, year at most 9999) calendar date. -/
def validYMD (y m d : Nat) : Prop :=
  1 ≤ y ∧ y ≤ 9999 ∧ 1 ≤ m ∧ m ≤ 12 ∧ 1 ≤ d ∧ d ≤ monthLength (isLeap y) m

instance (y m d : Nat) : Decidable (validYMD y m d) := by
  unfold validYMD; infer_instance

/-- Split a character list at every hyphen (the shape check done by the
regular expression `strptime` compiles for the format "%Y-%m-%d"). -/
def splitDash : List Char → List (List Char)
  | [] => [[]]
  | c :: cs =>
    if c = '-' then [] :: splitDash cs
    else
      match splitDash cs with
      | [] => [[c]]
      | g :: gs => (c :: g) :: gs

/-- Numeric value of a list of decimal digit characters. -/
def digitsVal (l : List Char) : Nat :=
  l.foldl (fun n c => 10 * n + (c.toNat - 48)) 0

/-- Model of `datetime.strptime(s, "%Y-%m-%d")`: the year is exactly four
digits, month and day are one or two digits, and the resulting numbers must
form a valid calendar date; any failure raises ValueError in Python, modelled
as `none`. -/
def parseYMD (s : String) : Option (Nat × Nat × Nat) :=
  match splitDash s.data with
  | [ys, ms, ds] =>
    if ys.length = 4 ∧ ys.all Char.isDigit ∧
       1 ≤ ms.length ∧ ms.length ≤ 2 ∧ ms.all Char.isDigit ∧
       1 ≤ ds.length ∧ ds.length ≤ 2 ∧ ds.all Char.isDigit then
      let y := digitsVal ys
      let m := digitsVal ms
      let d := digitsVal ds
      if validYMD y m d then some (y, m, d) else none
    else none
  | _ => none

/-- The four digit characters of `n` (zero padded), most significant first. -/
def pad4 (n : Nat) : List Char :=
  [digitChar (n / 1000 % 10), digitChar (n / 100 % 10),
   digitChar (n / 10 % 10), digitChar (n % 10)]

/-- The two digit characters of `n` (zero padded), most significant first. -/
def pad2 (n : Nat) : List Char :=
  [digitChar (n / 10 % 10), digitChar (n % 10)]

/-- Character list of the canonical `YYYY-MM-DD` rendering of a date. -/
def ymdChars (y m d : Nat) : List Char :=
  pad4 y ++ ('-' :: (pad2 m ++ ('-' :: pad2 d)))

/-- Canonical `YYYY-MM-DD` rendering of a date (`date.strftime("%Y-%m-%d")`). -/
def formatYMD (y m d : Nat) : String := ⟨ymdChars y m d⟩

/-- A string is a canonical date string when it is the `YYYY-MM-DD` rendering
of some valid calendar date. -/
def canonicalDate (s : String) : Prop :=
  ∃ y m d, validYMD y m d ∧ s = formatYMD y m d

/-- Day-number denotation of a date string (0 when it does not parse). -/
def dateVal (s : String) : Nat :=
  match parseYMD s with
  | some (y, m, d) => toOrdinal y m d
  | none => 0

/-- Half-open overlap of the date ranges denoted by canonical date strings:
two ranges overlap unless the first ends before (or exactly when) the second
starts, or starts after (or exactly when) the second ends. -/
def rangesOverlap (aIn aOut bIn bOut : String) : Prop :=
  ¬ (dateVal aOut ≤ dateVal bIn ∨ dateVal bOut ≤ dateVal aIn)

instance (aIn aOut bIn bOut : String) :
    Decidable (rangesOverlap aIn aOut bIn bOut) := by
  unfold rangesOverlap; infer_instance

/-! ## Data model (`mcp_server.py` pydantic models) -/

structure Hotel where
  id : String
  name : String
  location : String
  rating : ℚ
  amenities : List String
  price_per_night : ℚ
  available_rooms : Nat
  description : String
deriving DecidableEq

structure Room where
  id : String
  hotel_id : String
  room_type : String
  capacity : Nat
  price_per_night : ℚ
  amenities : List String
  available : Bool
deriving DecidableEq

structure Booking where
  id : String
  hotel_id : String
  room_id : String
  guest_name : String
  guest_email : String
  check_in : String
  check_out : String
  total_price : ℚ
  status : String
deriving DecidableEq

/-- The three module-level tables of `mcp_server.py`. -/
structure ServerState where
  hotels : List Hotel
  rooms : List Room
  bookings : List Booking
deriving DecidableEq

/-! ## The conflict predicate and the server operations -/

/-- Lexicographic comparison of character lists by code point, the order
Python uses to compare strings. -/
def listLE : List Char → List Char → Bool
  | [], _ => true
  | _ :: _, [] => false
  | a :: as, b :: bs =>
    if a.toNat < b.toNat then true
    else if b.toNat < a.toNat then false
    else listLE as bs

/-- Python string comparison `a <= b` (lexicographic by code point). -/
def strLE (a b : String) : Bool := listLE a.data b.data

/-- Three-way lexicographic comparison by code point (proof infrastructure
for analysing `listLE` on padded date strings). -/
def cmpChars : List Char → List Char → Ordering
  | a :: as, b :: bs =>
    if a.toNat < b.toNat then .lt
    else if b.toNat < a.toNat then .gt
    else cmpChars as bs
  | _, _ => .eq

/-- The conflict test of `check_availability` and `book_hotel`:
`not (check_out <= b.check_in or check_in >= b.check_out)` on raw strings,
with request range `[ci, co)` against booking range `[bIn, bOut)`. -/
def datesConflict (ci co bIn bOut : String) : Bool :=
  !(strLE co bIn || strLE bOut ci)

/-- A booking blocks a room for a requested range when it is for that room,
is confirmed or pending, and its range conflicts with the requested one. -/
def blocksRoom (room_id ci co : String) (b : Booking) : Bool :=
  b.room_id == room_id && (b.status == "confirmed" || b.status == "pending") &&
    datesConflict ci co b.check_in b.check_out

inductive AvailResult where
  | hotelNotFound : AvailResult
  | ok (rooms : List Room) : AvailResult
deriving DecidableEq

/-- Model of the `check_availability` tool (the rooms it reports available). -/
def check_availability (st : ServerState) (hotel_id ci co : String)
    (guests : Nat) : AvailResult :=
  match st.hotels.find? (fun h => h.id == hotel_id) with
  | none => .hotelNotFound
  | some _ =>
    .ok (st.rooms.filter (fun r =>
      r.hotel_id == hotel_id && r.available && decide (guests ≤ r.capacity) &&
        (st.bookings.filter (blocksRoom r.id ci co)).isEmpty))

inductive BookResult where
  | hotelNotFound : BookResult
  | roomNotFound : BookResult
  | roomNotAvailable : BookResult
  | invalidDateRange : BookResult
  | invalidDateFormat : BookResult
  | conflict (conflicting_dates : List (String × String)) : BookResult
  | booked (b : Booking) (nights : ℤ) : BookResult
deriving DecidableEq

/-- Model of the `book_hotel` tool.  The fresh id produced by `uuid.uuid4()`
is passed in as `new_id`.  Mirrors the Python control flow: find hotel and
room, check the availability flag, parse the dates and compute the price,
re-check conflicts against the ledger, then append the booking. -/
def book_hotel (st : ServerState)
    (hotel_id room_id guest_name guest_email ci co new_id : String) :
    BookResult × ServerState :=
  match st.hotels.find? (fun h => h.id == hotel_id) with
  | none => (.hotelNotFound, st)
  | some _hotel =>
    match st.rooms.find? (fun r => r.id == room_id && r.hotel_id == hotel_id) with
    | none => (.roomNotFound, st)
    | some room =>
      if !room.available then (.roomNotAvailable, st)
      else
        match parseYMD ci, parseYMD co with
        | some (y1, m1, d1), some (y2, m2, d2) =>
          let nights : ℤ := (toOrdinal y2 m2 d2 : ℤ) - (toOrdinal y1 m1 d1 : ℤ)
          if nights ≤ 0 then (.invalidDateRange, st)
          else
            let total_price : ℚ := room.price_per_night * (nights : ℚ)
            let conflicting := st.bookings.filter (blocksRoom room_id ci co)
            if conflicting.isEmpty then
              let bk : Booking :=
                { id := new_id, hotel_id := hotel_id, room_id := room_id
                  guest_name := guest_name, guest_email := guest_email
                  check_in := ci, check_out := co
                  total_price := total_price, status := "confirmed" }
              (.booked bk nights, { st with bookings := st.bookings ++ [bk] })
            else
              (.conflict (conflicting.map fun b => (b.check_in, b.check_out)), st)
        | _, _ => (.invalidDateFormat, st)

inductive CancelResult where
  | notFound : CancelResult
  | alreadyCancelled : CancelResult
  | cancelled (previous_status : String) (refund_amount : ℚ) : CancelResult
deriving DecidableEq

/-- Set the status of the first booking with the given id to "cancelled"
(Python mutates the object returned by `next`). -/
def cancelFirst : List Booking → String → List Booking
  | [], _ => []
  | b :: bs, bid =>
    if b.id == bid then { b with status := "cancelled" } :: bs
    else b :: cancelFirst bs bid

/-- Set the `available` flag of the first room with the given id to `true`. -/
def freeFirstRoom : List Room → String → List Room
  | [], _ => []
  | r :: rs, rid =>
    if r.id == rid then { r with available := true } :: rs
    else r :: freeFirstRoom rs rid

/-- Model of the `cancel_booking` tool. -/
def cancel_booking (st : ServerState) (booking_id : String) :
    CancelResult × ServerState :=
  match st.bookings.find? (fun b => b.id == booking_id) with
  | none => (.notFound, st)
  | some b =>
    if b.status == "cancelled" then (.alreadyCancelled, st)
    else
      (.cancelled b.status b.total_price,
        { st with
          bookings := cancelFirst st.bookings booking_id
          rooms := freeFirstRoom st.rooms b.room_id })

/-! ## `search_hotels` (string helpers mirror Python `str.lower`, `str.strip`,
`str.split(",")` and the substring operator `in` on ASCII data) -/

/-- Python `str.lower()` on the ASCII data used here. -/
def strLower (s : String) : String := ⟨s.data.map Char.toLower⟩

def isSpaceChar (c : Char) : Bool :=
  c == ' ' || c == '\t' || c == '\n' || c == '\r' || c == '\x0b' || c == '\x0c'

/-- Python `str.strip()` on the ASCII data used here. -/
def trimChars (l : List Char) : List Char :=
  ((l.dropWhile isSpaceChar).reverse.dropWhile isSpaceChar).reverse

def strTrim (s : String) : String := ⟨trimChars s.data⟩

/-- Split a character list at every occurrence of `sep`
(Python `str.split(sep)` for a one-character separator). -/
def splitOnChar (sep : Char) : List Char → List (List Char)
  | [] => [[]]
  | c :: cs =>
    if c = sep then [] :: splitOnChar sep cs
    else
      match splitOnChar sep cs with
      | [] => [[c]]
      | g :: gs => (c :: g) :: gs

/-- Whether `l` starts with `needle`. -/
def listStarts : List Char → List Char → Bool
  | [], _ => true
  | _ :: _, [] => false
  | a :: as, b :: bs => a == b && listStarts as bs

/-- Whether `needle` occurs as a contiguous sublist of the second list
(Python `needle in hay` for strings). -/
def listInfix (needle : List Char) : List Char → Bool
  | [] => needle.isEmpty
  | c :: cs => listStarts needle (c :: cs) || listInfix needle cs

/-- Python `needle in hay` for strings. -/
def strContains (hay needle : String) : Bool := listInfix needle.data hay.data

/-- The amenity list parsed by `search_hotels`:
`[a.strip().lower() for a in amenities.split(",") if a.strip()]`. -/
def parseAmenities (amenities : String) : List String :=
  (splitOnChar ',' amenities.data).filterMap fun a =>
    if (trimChars a).isEmpty then none else some (strLower ⟨trimChars a⟩)

/-- The location filter of `search_hotels`: when a non-blank location is
given, keep the hotel when the lowered, stripped location is contained in
the lowered hotel location, or some comma-separated part of it is, or the
first comma-separated part of the hotel location is contained in it. -/
def locationKeep (location : String) (hotelLoc : String) : Bool :=
  if strTrim location == "" then true
  else
    let ll := strTrim (strLower location)
    let hl := strLower hotelLoc
    strContains hl ll ||
    ((splitOnChar ',' ll.data).any fun part =>
      !(trimChars part).isEmpty && listInfix (trimChars part) hl.data) ||
    listInfix (trimChars ((splitOnChar ',' hl.data).headD [])) ll.data

/-- The amenity filter of `search_hotels`: at least one requested term is a
substring of at least one lowered amenity tag of the hotel (OR semantics). -/
def amenityMatch (amenity_list : List String) (h : Hotel) : Bool :=
  amenity_list.any fun want =>
    (h.amenities.map strLower).any fun tag => strContains tag want

/-- Whether `search_hotels` keeps a hotel (none of its `continue` branches
fires): location filter, `rating < min_rating` skips, `price > max_price`
skips, and when amenities were requested the amenity filter must match. -/
def hotelPasses (location : String) (min_rating max_price : ℚ)
    (amenity_list : List String) (h : Hotel) : Bool :=
  locationKeep location h.location &&
  !(decide (h.rating < min_rating)) &&
  !(decide (max_price < h.price_per_night)) &&
  (amenity_list.isEmpty || amenityMatch amenity_list h)

/-- Model of the `search_hotels` tool (the list of hotels it returns). -/
def search_hotels (st : ServerState) (location : String)
    (min_rating max_price : ℚ) (amenities : String) : List Hotel :=
  st.hotels.filter (hotelPasses location min_rating max_price (parseAmenities amenities))

/-! ## `get_booking_statistics` -/

structure Stats where
  total_bookings : Nat
  confirmed_bookings : Nat
  pending_bookings : Nat
  cancelled_bookings : Nat
  total_revenue : ℚ
  most_popular_hotels : List (String × Nat)
deriving DecidableEq

/-- One step of building `hotel_booking_counts`:
`counts[hotel_id] = counts.get(hotel_id, 0) + 1` on an insertion-ordered
association list (the Python dict preserves insertion order). -/
def bumpCount : List (String × Nat) → String → List (String × Nat)
  | [], h => [(h, 1)]
  | (k, v) :: rest, h =>
    if k == h then (k, v + 1) :: rest else (k, v) :: bumpCount rest h

/-- The `hotel_booking_counts` dict: hotels of confirmed or pending bookings
with their counts, keyed in order of first appearance in the ledger. -/
def activeCounts (bookings : List Booking) : List (String × Nat) :=
  bookings.foldl
    (fun acc b =>
      if b.status == "confirmed" || b.status == "pending" then
        bumpCount acc b.hotel_id
      else acc)
    []

/-- Stable insertion of an element into a list sorted by count descending:
it goes in front of the first element whose count does not exceed its own. -/
def insertByCountDesc (x : String × Nat) :
    List (String × Nat) → List (String × Nat)
  | [] => [x]
  | y :: ys => if y.2 ≤ x.2 then x :: y :: ys else y :: insertByCountDesc x ys

/-- Model of `sorted(counts.items(), key=lambda x: x[1], reverse=True)`.
Python `sorted` is a stable sort, and every stable sort computes the same
function, so a stable insertion sort is an exact model. -/
def sortByCountDesc : List (String × Nat) → List (String × Nat)
  | [] => []
  | x :: xs => insertByCountDesc x (sortByCountDesc xs)

/-- Model of the `get_booking_statistics` tool. -/
def get_booking_statistics (st : ServerState) : Stats :=
  { total_bookings := st.bookings.length
    confirmed_bookings := (st.bookings.filter (fun b => b.status == "confirmed")).length
    pending_bookings := (st.bookings.filter (fun b => b.status == "pending")).length
    cancelled_bookings := (st.bookings.filter (fun b => b.status == "cancelled")).length
    total_revenue :=
      ((st.bookings.filter (fun b => b.status == "confirmed")).map Booking.total_price).sum
    most_popular_hotels :=
      ((sortByCountDesc (activeCounts st.bookings)).filterMap fun p =>
        (st.hotels.find? (fun h => h.id == p.1)).map fun h => (h.name, p.2)).take 5 }

/-! ## LangGraph workflow routing (`langgraph_agents.py`)

The workflow state is abstracted to exactly the fields the three conditional
edge functions read: `error_message`, `search_parameters["has_hotel_intent"]`,
`search_results["hotels"]`, `selected_hotel` and `guest_info` (dictionaries
are modelled as association lists, Python truthiness of a string is
non-emptiness and of a dict is non-emptiness). -/

structure WFState where
  user_query : String
  error_message : String
  has_hotel_intent : Bool
  found_hotels : List (List (String × String))
  selected_hotel : List (String × String)
  guest_info : List (String × String)
deriving DecidableEq

/-- Python `dict.get(k)` on an association list. -/
def dictGet (d : List (String × String)) (k : String) : Option String :=
  (d.find? (fun p => p.1 == k)).map Prod.snd

/-- Truthiness of a Python string. -/
def truthyStr (s : String) : Bool := !(s == "")

/-- Truthiness of `dict.get(k)`: present and non-empty. -/
def truthyOptStr : Option String → Bool
  | none => false
  | some s => truthyStr s

/-- Conditional edge function after `query_analyzer`. -/
def should_search_hotels (s : WFState) : String :=
  if truthyStr s.error_message then "error"
  else if s.has_hotel_intent then "search"
  else "end"

/-- Conditional edge function after `hotel_searcher`. -/
def should_check_availability (s : WFState) : String :=
  if truthyStr s.error_message then "error"
  else if !s.found_hotels.isEmpty then "check_availability"
  else "end"

/-- Conditional edge function after `availability_checker`: proceed to the
booking executor only when a selected hotel is present and the guest info
has a non-empty name and a non-empty email. -/
def should_proceed_to_booking (s : WFState) : String :=
  if truthyStr s.error_message then "error"
  else if !s.selected_hotel.isEmpty &&
          truthyOptStr (dictGet s.guest_info "name") &&
          truthyOptStr (dictGet s.guest_info "email") then "book"
  else "end"

/-- The nodes of the compiled graph (`terminal` is LangGraph's END). -/
inductive WFNode where
  | dateExtractor : WFNode
  | queryAnalyzer : WFNode
  | hotelSearcher : WFNode
  | availabilityChecker : WFNode
  | bookingExecutor : WFNode
  | errorHandler : WFNode
  | terminal : WFNode
deriving DecidableEq

/-- The conditional edge map after `query_analyzer`:
`{"search": hotel_searcher, "error": error_handler, "end": END}`. -/
def routeAfterQuery (decision : String) : WFNode :=
  if decision == "search" then .hotelSearcher
  else if decision == "error" then .errorHandler
  else .terminal

/-- The conditional edge map after `hotel_searcher`. -/
def routeAfterSearch (decision : String) : WFNode :=
  if decision == "check_availability" then .availabilityChecker
  else if decision == "error" then .errorHandler
  else .terminal

/-- The conditional edge map after `availability_checker`:
`{"book": booking_executor, "end": END, "error": error_handler}`. -/
def routeAfterAvailability (decision : String) : WFNode :=
  if decision == "book" then .bookingExecutor
  else if decision == "error" then .errorHandler
  else .terminal

/-- One transition of the compiled graph: the node body runs (every node in
the source returns `{**state, ...}` and never rebinds `"guest_info"`, so a
node may change the state arbitrarily except for `guest_info`), then the
edge out of the node fires, using the conditional edge functions on the
state produced by the node. -/
inductive WFStep : WFNode × WFState → WFNode × WFState → Prop
  | dateToQuery (s s' : WFState) (hg : s'.guest_info = s.guest_info) :
      WFStep (.dateExtractor, s) (.queryAnalyzer, s')
  | fromQuery (s s' : WFState) (hg : s'.guest_info = s.guest_info) :
      WFStep (.queryAnalyzer, s) (routeAfterQuery (should_search_hotels s'), s')
  | fromSearch (s s' : WFState) (hg : s'.guest_info = s.guest_info) :
      WFStep (.hotelSearcher, s) (routeAfterSearch (should_check_availability s'), s')
  | fromAvailability (s s' : WFState) (hg : s'.guest_info = s.guest_info) :
      WFStep (.availabilityChecker, s)
        (routeAfterAvailability (should_proceed_to_booking s'), s')
  | fromBooking (s s' : WFState) (hg : s'.guest_info = s.guest_info) :
      WFStep (.bookingExecutor, s) (.terminal, s')
  | fromError (s s' : WFState) (hg : s'.guest_info = s.guest_info) :
      WFStep (.errorHandler, s) (.terminal, s')

/-- Reachability in the compiled graph. -/
def WFReaches : WFNode × WFState → WFNode × WFState → Prop :=
  Relation.ReflTransGen WFStep

/-- The initial state of `run_search_workflow`: empty guest info, no error,
empty search parameters and results. -/
def searchInitialState (q : String) : WFState :=
  { user_query := q
    error_message := ""
    has_hotel_intent := false
    found_hotels := []
    selected_hotel := []
    guest_info := [] }

/-! ## Concrete test fixtures (used by witnesses and counterexamples) -/

def exHotel : Hotel :=
  { id := "hotel_x", name := "Example Hotel", location := "Testville, TS"
    rating := 4, amenities := ["WiFi", "Pool"], price_per_night := 100
    available_rooms := 1, description := "fixture" }

def exRoom : Room :=
  { id := "room_x", hotel_id := "hotel_x", room_type := "Standard"
    capacity := 2, price_per_night := 100, amenities := ["WiFi"]
    available := true }

def exBooking : Booking :=
  { id := "booking_x", hotel_id := "hotel_x", room_id := "room_x"
    guest_name := "Ann", guest_email := "ann@example.com"
    check_in := "2025-07-25", check_out := "2025-07-27"
    total_price := 200, status := "confirmed" }

/-- A server state with one active booking for room `room_x`
over `[2025-07-25, 2025-07-27)`. -/
def exState : ServerState :=
  { hotels := [exHotel], rooms := [exRoom], bookings := [exBooking] }

/-- A server state whose only booking is already cancelled. -/
def cancelledState : ServerState :=
  { hotels := [exHotel], rooms := [exRoom]
    bookings := [{ exBooking with status := "cancelled" }] }

/-- A server state with no bookings at all. -/
def freshState : ServerState :=
  { hotels := [exHotel], rooms := [exRoom], bookings := [] }

def beachHotel : Hotel :=
  { id := "hotel_b", name := "Beach Hotel", location := "Seaside, SS"
    rating := 4, amenities := ["Beach Access", "Pool"], price_per_night := 100
    available_rooms := 1, description := "fixture" }

def searchState : ServerState :=
  { hotels := [beachHotel], rooms := [], bookings := [] }

def hotelAlpha : Hotel :=
  { id := "hotel_a", name := "Alpha", location := "A-town"
    rating := 4, amenities := [], price_per_night := 100
    available_rooms := 1, description := "fixture" }

def hotelBeta : Hotel :=
  { id := "hotel_b", name := "Beta", location := "B-town"
    rating := 4, amenities := [], price_per_night := 100
    available_rooms := 1, description := "fixture" }

/-- A ledger whose first active booking is for `hotel_b` and whose second is
for `hotel_a`, both confirmed, so both hotels count one active booking. -/
def tieState : ServerState :=
  { hotels := [hotelAlpha, hotelBeta]
    rooms := []
    bookings :=
      [{ exBooking with id := "bk1", hotel_id := "hotel_b", room_id := "r_b" },
       { exBooking with id := "bk2", hotel_id := "hotel_a", room_id := "r_a" }] }

/-! # Theorems -/

theorem listLE_refl (l : List Char) : listLE l l = true := by
  induction l with
  | nil => rfl
  | cons a as ih => simp [listLE, ih]

/-- C3: the overlap predicate is symmetric: for any two date ranges
`A = [a,b)` and `B = [c,d)`, `overlaps(A,B) = overlaps(B,A)` — the result
does not depend on which range is the existing booking and which the
request. -/
theorem datesConflict_symm (a b c d : String) :
    datesConflict a b c d = datesConflict c d a b := by
  simp [datesConflict, Bool.or_comm]

/-- C4: commit is atomic on failure: `book_hotel` never changes the hotel
list or the room list, and it appends exactly one confirmed booking when it
returns a success and leaves the ledger exactly as it was whenever it
returns any error result. -/
theorem book_hotel_atomic (st : ServerState) (hid rid gn ge ci co nid : String) :
    (book_hotel st hid rid gn ge ci co nid).2.hotels = st.hotels ∧
    (book_hotel st hid rid gn ge ci co nid).2.rooms = st.rooms ∧
    (match book_hotel st hid rid gn ge ci co nid with
     | (.booked b _, st') => st'.bookings = st.bookings ++ [b] ∧ b.status = "confirmed"
     | (_, st') => st'.bookings = st.bookings) := by
  unfold book_hotel
  cases st.hotels.find? (fun h => h.id == hid) with
  | none => exact ⟨rfl, rfl, rfl⟩
  | some hotel =>
  cases st.rooms.find? (fun r => r.id == rid && r.hotel_id == hid) with
  | none => exact ⟨rfl, rfl, rfl⟩
  | some room =>
  dsimp only
  cases hb : room.available with
  | false => exact ⟨rfl, rfl, rfl⟩
  | true =>
  simp only [Bool.not_true, Bool.false_eq_true, if_false]
  cases parseYMD ci with
  | none => cases parseYMD co <;> exact ⟨by trivial, by trivial, by trivial⟩
  | some p =>
  obtain ⟨y1, m1, d1⟩ := p
  cases parseYMD co with
  | none => exact ⟨by trivial, by trivial, by trivial⟩
  | some q =>
  obtain ⟨y2, m2, d2⟩ := q
  by_cases hn : ((toOrdinal y2 m2 d2 : ℤ) - (toOrdinal y1 m1 d1 : ℤ)) ≤ 0
  · simp only [if_pos hn]
    exact ⟨by trivial, by trivial, by trivial⟩
  · simp only [if_neg hn]
    by_cases hc : (st.bookings.filter (blocksRoom rid ci co)).isEmpty
    · simp only [if_pos hc]
      exact ⟨by trivial, by trivial, by trivial, by trivial⟩
    · simp only [if_neg hc]
      exact ⟨by trivial, by trivial, by trivial⟩

/-- C6: idempotent cancellation: when the booking is not found,
`cancel_booking` returns NotFound and leaves the state unchanged; when the
booking is already cancelled it returns AlreadyCancelled and leaves the
state unchanged (so no second refund is issued and no room flag is
touched). -/
theorem cancel_booking_idempotent (st : ServerState) (bid : String) :
    (st.bookings.find? (fun b => b.id == bid) = none →
      cancel_booking st bid = (.notFound, st)) ∧
    (∀ bk, st.bookings.find? (fun b => b.id == bid) = some bk →
      bk.status = "cancelled" →
      cancel_booking st bid = (.alreadyCancelled, st)) := by
  unfold cancel_booking
  constructor
  · intro h; rw [h]
  · intro bk h hs; rw [h]; simp [hs]

theorem cancel_booking_idempotent_witness :
    cancel_booking cancelledState "booking_x" = (.alreadyCancelled, cancelledState) ∧
    cancel_booking cancelledState "missing" = (.notFound, cancelledState) :=
  ⟨(cancel_booking_idempotent cancelledState "booking_x").2
      { exBooking with status := "cancelled" } (by decide) rfl,
   (cancel_booking_idempotent cancelledState "missing").1 (by decide)⟩

/-- C10: when the hotel and room exist, the room belongs to the hotel and
its available flag is true, a check-in or check-out string that does not
parse as a date makes `book_hotel` return the invalid-date-format error as
data with the state unchanged — in particular the malformed date never
reaches the conflict check, whatever the ledger contains. -/
theorem book_hotel_invalid_format (st : ServerState)
    (hid rid gn ge ci co nid : String) (hotel : Hotel) (room : Room)
    (hh : st.hotels.find? (fun h => h.id == hid) = some hotel)
    (hr : st.rooms.find? (fun r => r.id == rid && r.hotel_id == hid) = some room)
    (hav : room.available = true)
    (hbad : parseYMD ci = none ∨ parseYMD co = none) :
    book_hotel st hid rid gn ge ci co nid = (.invalidDateFormat, st) := by
  unfold book_hotel
  rw [hh, hr]
  simp only [hav, Bool.not_true, Bool.false_eq_true, if_false]
  cases hci : parseYMD ci with
  | none =>
    cases hco : parseYMD co <;> simp
  | some p =>
    obtain ⟨y1, m1, d1⟩ := p
    cases hco : parseYMD co with
    | none => simp
    | some q =>
      exact absurd hbad (by simp [hci, hco])

theorem book_hotel_invalid_format_witness :
    book_hotel exState "hotel_x" "room_x" "Bob" "bob@example.com"
      "2025-13-01" "2025-07-26" "new_id" = (.invalidDateFormat, exState) :=
  book_hotel_invalid_format exState "hotel_x" "room_x" "Bob" "bob@example.com"
    "2025-13-01" "2025-07-26" "new_id" exHotel exRoom
    (by decide) (by decide) (by decide) (Or.inl (by decide))

/-- C5: for every successful `book_hotel` call, the reported nights equal the
whole-day difference of the parsed check-out and check-in dates, and the
created booking's total price is the room's nightly price times the nights. -/
theorem book_hotel_price (st : ServerState) (hid rid gn ge ci co nid : String)
    (room : Room) (y1 m1 d1 y2 m2 d2 : Nat)
    (hr : st.rooms.find? (fun r => r.id == rid && r.hotel_id == hid) = some room)
    (hci : parseYMD ci = some (y1, m1, d1)) (hco : parseYMD co = some (y2, m2, d2))
    (b : Booking) (n : ℤ) (st' : ServerState)
    (hres : book_hotel st hid rid gn ge ci co nid = (.booked b n, st')) :
    n = (toOrdinal y2 m2 d2 : ℤ) - (toOrdinal y1 m1 d1 : ℤ) ∧
    b.total_price = room.price_per_night * (n : ℚ) := by
  unfold book_hotel at hres
  cases hh : st.hotels.find? (fun h => h.id == hid) with
  | none => rw [hh] at hres; simp at hres
  | some hotel =>
  rw [hh, hr, hci, hco] at hres
  cases hb : room.available with
  | false => simp [hb] at hres
  | true =>
  simp only [hb, Bool.not_true, Bool.false_eq_true, if_false] at hres
  split at hres
  · simp at hres
  · split at hres
    · simp only [Prod.mk.injEq, BookResult.booked.injEq] at hres
      obtain ⟨⟨hb1, hn1⟩, hst⟩ := hres
      subst hn1
      exact ⟨rfl, by rw [← hb1]⟩
    · simp at hres

attribute [local semireducible] Rat.mul in
theorem book_hotel_price_witness :
    ((3 : ℤ) = (toOrdinal 2025 7 28 : ℤ) - (toOrdinal 2025 7 25 : ℤ)) ∧
    ((300 : ℚ) = (100 : ℚ) * (((3 : ℤ) : ℚ))) :=
  book_hotel_price freshState "hotel_x" "room_x" "Bob" "bob@example.com"
    "2025-07-25" "2025-07-28" "new_id" exRoom 2025 7 25 2025 7 28
    (by decide) (by decide) (by decide)
    { id := "new_id", hotel_id := "hotel_x", room_id := "room_x"
      guest_name := "Bob", guest_email := "bob@example.com"
      check_in := "2025-07-25", check_out := "2025-07-28"
      total_price := 300, status := "confirmed" }
    3
    { hotels := [exHotel], rooms := [exRoom]
      bookings :=
        [{ id := "new_id", hotel_id := "hotel_x", room_id := "room_x"
           guest_name := "Bob", guest_email := "bob@example.com"
           check_in := "2025-07-25", check_out := "2025-07-28"
           total_price := 300, status := "confirmed" }] }
    (by decide)

attribute [local semireducible] Rat.mul in
/-- C2: the overlap predicate is half-open exclusive: a request whose
check-in equals a booking's check-out never conflicts with it; concretely,
with an active booking over `[2025-07-25, 2025-07-27)` a request for the
same room over `[2025-07-27, 2025-07-29)` is booked (not rejected as a
conflict) and `check_availability` still lists the room. -/
theorem halfOpen_boundary :
    (∀ ci co bIn bOut : String, ci = bOut → datesConflict ci co bIn bOut = false) ∧
    (book_hotel exState "hotel_x" "room_x" "Bob" "bob@example.com"
        "2025-07-27" "2025-07-29" "new_id" =
      (.booked
        { id := "new_id", hotel_id := "hotel_x", room_id := "room_x"
          guest_name := "Bob", guest_email := "bob@example.com"
          check_in := "2025-07-27", check_out := "2025-07-29"
          total_price := 200, status := "confirmed" } 2,
       { hotels := [exHotel], rooms := [exRoom]
         bookings :=
           [exBooking,
            { id := "new_id", hotel_id := "hotel_x", room_id := "room_x"
              guest_name := "Bob", guest_email := "bob@example.com"
              check_in := "2025-07-27", check_out := "2025-07-29"
              total_price := 200, status := "confirmed" }] })) ∧
    (check_availability exState "hotel_x" "2025-07-27" "2025-07-29" 2 =
      .ok [exRoom]) := by
  refine ⟨?_, ?_, ?_⟩
  · intro ci co bIn bOut h
    subst h
    simp [datesConflict, strLE, listLE_refl]
  · decide
  · decide

theorem halfOpen_boundary_witness :
    datesConflict "2025-07-27" "2025-07-29" "2025-07-25" "2025-07-27" = false :=
  halfOpen_boundary.1 "2025-07-27" "2025-07-29" "2025-07-25" "2025-07-27" rfl

/-- C7: amenity filtering uses OR semantics with case-insensitive substring
matching: for a hotel passing the location, rating and price filters and a
non-empty requested amenity list, `search_hotels` keeps the hotel exactly
when some requested term is a substring of some lowered amenity tag. -/
theorem amenity_or_semantics (st : ServerState) (location : String)
    (minr maxp : ℚ) (amenities : String) (h : Hotel)
    (hne : parseAmenities amenities ≠ [])
    (hloc : locationKeep location h.location = true)
    (hrate : ¬ h.rating < minr) (hprice : ¬ maxp < h.price_per_night) :
    h ∈ search_hotels st location minr maxp amenities ↔
      (h ∈ st.hotels ∧ ∃ want ∈ parseAmenities amenities, ∃ tag ∈ h.amenities,
        strContains (strLower tag) want = true) := by
  simp only [search_hotels, List.mem_filter, hotelPasses, hloc, true_and,
    Bool.and_eq_true, Bool.not_eq_true', decide_eq_false_iff_not,
    Bool.or_eq_true, List.isEmpty_eq_true, amenityMatch, List.any_eq_true,
    List.mem_map]
  constructor
  · rintro ⟨hmem, ⟨-, -⟩, hor⟩
    rcases hor with hempty | ⟨want, hw, tag', ⟨tag, htag, rfl⟩, hsub⟩
    · exact absurd hempty hne
    · exact ⟨hmem, want, hw, tag, htag, hsub⟩
  · rintro ⟨hmem, want, hw, tag, htag, hsub⟩
    exact ⟨hmem, ⟨hrate, hprice⟩, Or.inr ⟨want, hw, strLower tag, ⟨tag, htag, rfl⟩, hsub⟩⟩

theorem amenity_or_semantics_witness :
    beachHotel ∈ search_hotels searchState "" 0 1000 "spa,beach" :=
  (amenity_or_semantics searchState "" 0 1000 "spa,beach" beachHotel
    (by decide) (by decide) (by decide) (by decide)).mpr
    ⟨by decide, "beach", by decide, "Beach Access", by decide, by decide⟩

theorem mem_insertByCountDesc {z x : String × Nat} {l : List (String × Nat)} :
    z ∈ insertByCountDesc x l ↔ z = x ∨ z ∈ l := by
  induction l with
  | nil => simp [insertByCountDesc]
  | cons y ys ih =>
    by_cases hc : y.2 ≤ x.2
    · rw [insertByCountDesc, if_pos hc]
      simp [or_comm, or_assoc, or_left_comm]
    · rw [insertByCountDesc, if_neg hc]
      simp [ih, or_comm, or_assoc, or_left_comm]

theorem mem_sortByCountDesc {z : String × Nat} {l : List (String × Nat)} :
    z ∈ sortByCountDesc l ↔ z ∈ l := by
  induction l with
  | nil => simp [sortByCountDesc]
  | cons y ys ih => rw [sortByCountDesc]; simp [mem_insertByCountDesc, ih]

theorem pairwise_insertByCountDesc (x : String × Nat) {l : List (String × Nat)}
    (hl : l.Pairwise (fun a b => b.2 ≤ a.2)) :
    (insertByCountDesc x l).Pairwise (fun a b => b.2 ≤ a.2) := by
  induction l with
  | nil => simp [insertByCountDesc]
  | cons y ys ih =>
    rw [List.pairwise_cons] at hl
    obtain ⟨hy, hys⟩ := hl
    by_cases hc : y.2 ≤ x.2
    · rw [insertByCountDesc, if_pos hc]
      refine List.Pairwise.cons ?_ (List.Pairwise.cons hy hys)
      intro z hz
      rcases List.mem_cons.mp hz with rfl | hz
      · exact hc
      · exact le_trans (hy z hz) hc
    · rw [insertByCountDesc, if_neg hc]
      refine List.Pairwise.cons ?_ (ih hys)
      intro z hz
      rcases mem_insertByCountDesc.mp hz with rfl | hz
      · exact le_of_lt (lt_of_not_le hc)
      · exact hy z hz

theorem pairwise_sortByCountDesc (l : List (String × Nat)) :
    (sortByCountDesc l).Pairwise (fun a b => b.2 ≤ a.2) := by
  induction l with
  | nil => simp [sortByCountDesc]
  | cons y ys ih => rw [sortByCountDesc]; exact pairwise_insertByCountDesc y ih

theorem self_sublist_insertByCountDesc (x : String × Nat)
    (l : List (String × Nat)) : l.Sublist (insertByCountDesc x l) := by
  induction l with
  | nil => simp [insertByCountDesc]
  | cons y ys ih =>
    by_cases hc : y.2 ≤ x.2
    · rw [insertByCountDesc, if_pos hc]
      exact List.Sublist.cons x (List.Sublist.refl _)
    · rw [insertByCountDesc, if_neg hc]
      exact List.Sublist.cons₂ y ih

theorem pair_sublist_insertByCountDesc {x b : String × Nat}
    {l : List (String × Nat)} (hb : b ∈ l) (hle : b.2 ≤ x.2) :
    [x, b].Sublist (insertByCountDesc x l) := by
  induction l with
  | nil => cases hb
  | cons y ys ih =>
    by_cases hc : y.2 ≤ x.2
    · rw [insertByCountDesc, if_pos hc]
      exact List.Sublist.cons₂ x (List.singleton_sublist.mpr hb)
    · rw [insertByCountDesc, if_neg hc]
      rcases List.mem_cons.mp hb with rfl | hb
      · exact absurd hle hc
      · exact List.Sublist.cons y (ih hb)

theorem pair_sublist_sortByCountDesc {x y : String × Nat}
    {l : List (String × Nat)} (h : [x, y].Sublist l) (hle : y.2 ≤ x.2) :
    [x, y].Sublist (sortByCountDesc l) := by
  induction l with
  | nil => cases h
  | cons z zs ih =>
    rw [sortByCountDesc]
    cases h with
    | cons _ h' => exact (ih h').trans (self_sublist_insertByCountDesc z _)
    | cons₂ _ h' =>
      exact pair_sublist_insertByCountDesc
        (mem_sortByCountDesc.mpr (List.singleton_sublist.mp h')) hle

theorem sum_filter_confirmed (l : List Booking) :
    ((l.filter (fun b => b.status == "confirmed")).map Booking.total_price).sum =
      (l.map fun b => if b.status = "confirmed" then b.total_price else 0).sum := by
  induction l with
  | nil => rfl
  | cons b bs ih =>
    by_cases hb : b.status = "confirmed" <;>
      simp [List.filter_cons, hb, ih]

/-- C8 counterexample: on a ledger whose first active booking is for
`hotel_b` ("Beta") and whose second is for `hotel_a` ("Alpha"), both hotels
have one active booking each, yet the most-popular list reports Beta before
Alpha although `hotel_a` precedes `hotel_b` in ascending id order — so ties
are not broken by hotel id ascending. -/
theorem stats_tie_counterexample :
    activeCounts tieState.bookings = [("hotel_b", 1), ("hotel_a", 1)] ∧
    (get_booking_statistics tieState).most_popular_hotels =
      [("Beta", 1), ("Alpha", 1)] ∧
    strLE "hotel_a" "hotel_b" = true ∧ "hotel_a" ≠ "hotel_b" ∧
    hotelAlpha.name = "Alpha" ∧ hotelBeta.name = "Beta" := by
  refine ⟨by decide, ?_, by decide, by decide, by decide, by decide⟩
  decide

/-- C8 (amended): the most-popular-hotels list ranks hotels by their count
of active (confirmed or pending) bookings in descending order, with ties
broken by the order in which the hotels first appear among the active
bookings of the ledger (not by hotel id); and total revenue sums
`total_price` over confirmed bookings only, excluding pending and cancelled
ones. -/
theorem stats_sorted_stable_revenue (st : ServerState) :
    ((get_booking_statistics st).total_revenue =
      (st.bookings.map fun b =>
        if b.status = "confirmed" then b.total_price else 0).sum) ∧
    ((get_booking_statistics st).most_popular_hotels.Pairwise
      (fun a b => b.2 ≤ a.2)) ∧
    (∀ x y, [x, y].Sublist (activeCounts st.bookings) → y.2 ≤ x.2 →
      [x, y].Sublist (sortByCountDesc (activeCounts st.bookings))) := by
  refine ⟨sum_filter_confirmed st.bookings, ?_, ?_⟩
  · have hsorted := pairwise_sortByCountDesc (activeCounts st.bookings)
    have hmap :
        ((sortByCountDesc (activeCounts st.bookings)).filterMap fun p =>
          (st.hotels.find? (fun h => h.id == p.1)).map
            fun h => (h.name, p.2)).Pairwise (fun a b => b.2 ≤ a.2) := by
      rw [List.pairwise_filterMap]
      refine hsorted.imp ?_
      intro p q hpq u hu v hv
      simp only [Option.mem_def, Option.map_eq_some'] at hu hv
      obtain ⟨hp, -, rfl⟩ := hu
      obtain ⟨hq, -, rfl⟩ := hv
      exact hpq
    exact hmap.sublist (List.take_sublist 5 _)
  · intro x y hxy hle
    exact pair_sublist_sortByCountDesc hxy hle

theorem stats_sorted_stable_revenue_witness :
    [(("hotel_b" : String), 1), (("hotel_a" : String), 1)].Sublist
      (sortByCountDesc (activeCounts tieState.bookings)) :=
  (stats_sorted_stable_revenue tieState).2.2 ("hotel_b", 1) ("hotel_a", 1)
    (List.Sublist.refl _) (by decide)

theorem routeAfterQuery_ne_booking (d : String) :
    routeAfterQuery d ≠ WFNode.bookingExecutor := by
  unfold routeAfterQuery
  split_ifs <;> simp

theorem routeAfterSearch_ne_booking (d : String) :
    routeAfterSearch d ≠ WFNode.bookingExecutor := by
  unfold routeAfterSearch
  split_ifs <;> simp

theorem routeAfterAvailability_ne_booking {d : String} (h : d ≠ "book") :
    routeAfterAvailability d ≠ WFNode.bookingExecutor := by
  unfold routeAfterAvailability
  split_ifs with h1 h2
  · exact absurd (by simpa using h1) h
  · simp
  · simp

theorem should_proceed_ne_book {s : WFState}
    (h : truthyOptStr (dictGet s.guest_info "name") = false ∨
         truthyOptStr (dictGet s.guest_info "email") = false) :
    should_proceed_to_booking s ≠ "book" := by
  unfold should_proceed_to_booking
  split_ifs with h1 h2
  · simp
  · exfalso
    simp only [Bool.and_eq_true] at h2
    rcases h with hf | hf <;> simp [hf] at h2
  · simp

/-- C9: the workflow booking gate: starting the compiled graph at the date
extractor in any state whose guest info lacks a non-empty name or a
non-empty email (in particular the search-only workflow, which starts with
empty guest info), the booking-executor node is never reached: the
conditional edge after the availability checker routes to end or to the
error handler, and no node ever changes the guest info. -/
theorem workflow_booking_gate (s0 : WFState)
    (hmiss : truthyOptStr (dictGet s0.guest_info "name") = false ∨
             truthyOptStr (dictGet s0.guest_info "email") = false) :
    ∀ n s, WFReaches (WFNode.dateExtractor, s0) (n, s) →
      n ≠ WFNode.bookingExecutor := by
  have key : ∀ x, WFReaches (WFNode.dateExtractor, s0) x →
      x.2.guest_info = s0.guest_info ∧ x.1 ≠ WFNode.bookingExecutor := by
    intro x hx
    induction hx with
    | refl => exact ⟨rfl, by simp⟩
    | tail hab hbc ih =>
      obtain ⟨hg, hn⟩ := ih
      cases hbc with
      | dateToQuery s s' hg' => exact ⟨hg'.trans hg, by simp⟩
      | fromQuery s s' hg' => exact ⟨hg'.trans hg, routeAfterQuery_ne_booking _⟩
      | fromSearch s s' hg' => exact ⟨hg'.trans hg, routeAfterSearch_ne_booking _⟩
      | fromAvailability s s' hg' =>
        refine ⟨hg'.trans hg,
          routeAfterAvailability_ne_booking (should_proceed_ne_book ?_)⟩
        rw [hg'.trans hg]
        exact hmiss
      | fromBooking s s' hg' => exact absurd rfl hn
      | fromError s s' hg' => exact ⟨hg'.trans hg, by simp⟩
  intro n s h
  exact (key (n, s) h).2

theorem workflow_booking_gate_witness :
    WFNode.terminal ≠ WFNode.bookingExecutor :=
  workflow_booking_gate (searchInitialState "find hotels") (Or.inl rfl)
    WFNode.terminal (searchInitialState "find hotels")
    (Relation.ReflTransGen.tail
      (Relation.ReflTransGen.single (WFStep.dateToQuery _ _ rfl))
      (WFStep.fromQuery _ _ rfl))

/-! ## Bridge between canonical date strings, their parse, and ordinals -/

theorem digitChar_mod_toNat (n : Nat) :
    (digitChar (n % 10)).toNat = 48 + n % 10 := by
  have h : ∀ x, x < 10 → (digitChar x).toNat = 48 + x := by decide
  exact h _ (Nat.mod_lt n (by decide))

theorem digitChar_mod_ne_dash (n : Nat) : ¬ digitChar (n % 10) = '-' := by
  have h : ∀ x, x < 10 → ¬ digitChar x = '-' := by decide
  exact h _ (Nat.mod_lt n (by decide))

theorem digitChar_mod_isDigit (n : Nat) :
    (digitChar (n % 10)).isDigit = true := by
  have h : ∀ x, x < 10 → (digitChar x).isDigit = true := by decide
  exact h _ (Nat.mod_lt n (by decide))

theorem monthLength_le {L : Bool} {m : Nat} (h : m ≤ 12) :
    monthLength L m ≤ 31 := by
  have key : ∀ (L : Bool), ∀ m, m < 13 → monthLength L m ≤ 31 := by decide
  exact key L m (by omega)

theorem splitDash_ymdChars (y m d : Nat) :
    splitDash (ymdChars y m d) = [pad4 y, pad2 m, pad2 d] := by
  simp [ymdChars, pad4, pad2, splitDash, digitChar_mod_ne_dash]

theorem digitsVal_pad4 {y : Nat} (h : y ≤ 9999) : digitsVal (pad4 y) = y := by
  simp only [digitsVal, pad4, List.foldl_cons, List.foldl_nil, digitChar_mod_toNat]
  omega

theorem digitsVal_pad2 {m : Nat} (h : m ≤ 99) : digitsVal (pad2 m) = m := by
  simp only [digitsVal, pad2, List.foldl_cons, List.foldl_nil, digitChar_mod_toNat]
  omega

theorem pad4_all_digits (y : Nat) : (pad4 y).all Char.isDigit = true := by
  simp [pad4, digitChar_mod_isDigit]

theorem pad2_all_digits (m : Nat) : (pad2 m).all Char.isDigit = true := by
  simp [pad2, digitChar_mod_isDigit]

/-- Parsing is a left inverse of formatting on valid dates. -/
theorem parseYMD_formatYMD {y m d : Nat} (hv : validYMD y m d) :
    parseYMD (formatYMD y m d) = some (y, m, d) := by
  obtain ⟨h1, h2, h3, h4, h5, h6⟩ := hv
  have hy : digitsVal (pad4 y) = y := digitsVal_pad4 h2
  have hm : digitsVal (pad2 m) = m := digitsVal_pad2 (le_trans h4 (by omega))
  have hd : digitsVal (pad2 d) = d :=
    digitsVal_pad2 (le_trans h6 (le_trans (monthLength_le h4) (by omega)))
  unfold parseYMD formatYMD
  rw [show (⟨ymdChars y m d⟩ : String).data = ymdChars y m d from rfl,
    splitDash_ymdChars]
  dsimp only
  rw [if_pos ⟨rfl, pad4_all_digits y, by simp [pad2], by simp [pad2],
    pad2_all_digits m, by simp [pad2], by simp [pad2], pad2_all_digits d⟩]
  rw [hy, hm, hd, if_pos ⟨h1, h2, h3, h4, h5, h6⟩]

theorem listLE_append {p1 p2 : List Char} (r1 r2 : List Char)
    (h : p1.length = p2.length) :
    listLE (p1 ++ r1) (p2 ++ r2) =
      (match cmpChars p1 p2 with
       | .lt => true
       | .gt => false
       | .eq => listLE r1 r2) := by
  induction p1 generalizing p2 with
  | nil =>
    cases p2 with
    | nil => simp [cmpChars]
    | cons b bs => simp at h
  | cons a as ih =>
    cases p2 with
    | nil => simp at h
    | cons b bs =>
      simp only [List.length_cons, Nat.add_right_cancel_iff] at h
      simp only [List.cons_append, listLE, cmpChars]
      by_cases hab : a.toNat < b.toNat
      · rw [if_pos hab, if_pos hab]
      · rw [if_neg hab, if_neg hab]
        by_cases hba : b.toNat < a.toNat
        · rw [if_pos hba, if_pos hba]
        · rw [if_neg hba, if_neg hba]
          exact ih h

theorem cmp_pad4 {y y' : Nat} (h : y ≤ 9999) (h' : y' ≤ 9999) :
    cmpChars (pad4 y) (pad4 y') =
      (if y < y' then Ordering.lt else if y' < y then Ordering.gt
       else Ordering.eq) := by
  simp only [pad4, cmpChars, digitChar_mod_toNat]
  split_ifs <;> first
  | rfl
  | (exfalso; omega)

theorem cmp_pad2 {m m' : Nat} (h : m ≤ 99) (h' : m' ≤ 99) :
    cmpChars (pad2 m) (pad2 m') =
      (if m < m' then Ordering.lt else if m' < m then Ordering.gt
       else Ordering.eq) := by
  simp only [pad2, cmpChars, digitChar_mod_toNat]
  split_ifs <;> first
  | rfl
  | (exfalso; omega)

theorem listLE_pad2 {d d' : Nat} (h : d ≤ 99) (h' : d' ≤ 99) :
    (listLE (pad2 d) (pad2 d') = true) ↔ d ≤ d' := by
  simp only [pad2, listLE, digitChar_mod_toNat]
  split_ifs <;> simp <;> omega

/-- Lexicographic comparison of two canonical date strings is the
lexicographic comparison of their (year, month, day) triples. -/
theorem listLE_ymd {y m d y' m' d' : Nat}
    (hv : validYMD y m d) (hv' : validYMD y' m' d') :
    (listLE (ymdChars y m d) (ymdChars y' m' d') = true) ↔
      (y < y' ∨ (y = y' ∧ (m < m' ∨ (m = m' ∧ d ≤ d')))) := by
  obtain ⟨h1, h2, h3, h4, h5, h6⟩ := hv
  obtain ⟨h1', h2', h3', h4', h5', h6'⟩ := hv'
  have hd99 : d ≤ 99 := by
    have := monthLength_le (L := isLeap y) h4
    omega
  have hd99' : d' ≤ 99 := by
    have := monthLength_le (L := isLeap y') h4'
    omega
  unfold ymdChars
  rw [listLE_append _ _ (by simp [pad4]), cmp_pad4 h2 h2']
  by_cases hy : y < y'
  · rw [if_pos hy]
    exact iff_of_true rfl (Or.inl hy)
  · rw [if_neg hy]
    by_cases hy2 : y' < y
    · rw [if_pos hy2]
      exact iff_of_false (by simp) (by omega)
    · rw [if_neg hy2]
      show listLE ('-' :: (pad2 m ++ '-' :: pad2 d))
        ('-' :: (pad2 m' ++ '-' :: pad2 d')) = true ↔ _
      rw [show listLE ('-' :: (pad2 m ++ '-' :: pad2 d))
          ('-' :: (pad2 m' ++ '-' :: pad2 d')) =
          listLE (pad2 m ++ '-' :: pad2 d) (pad2 m' ++ '-' :: pad2 d') from
        by simp [listLE]]
      rw [listLE_append _ _ (by simp [pad2]), cmp_pad2 (by omega) (by omega)]
      by_cases hm : m < m'
      · rw [if_pos hm]
        exact iff_of_true rfl (by omega)
      · rw [if_neg hm]
        by_cases hm2 : m' < m
        · rw [if_pos hm2]
          exact iff_of_false (by simp) (by omega)
        · rw [if_neg hm2]
          show listLE ('-' :: pad2 d) ('-' :: pad2 d') = true ↔ _
          rw [show listLE ('-' :: pad2 d) ('-' :: pad2 d') =
              listLE (pad2 d) (pad2 d') from by simp [listLE]]
          rw [listLE_pad2 hd99 hd99']
          omega

theorem strLE_format {y m d y' m' d' : Nat}
    (hv : validYMD y m d) (hv' : validYMD y' m' d') :
    (strLE (formatYMD y m d) (formatYMD y' m' d') = true) ↔
      (y < y' ∨ (y = y' ∧ (m < m' ∨ (m = m' ∧ d ≤ d')))) := by
  unfold strLE formatYMD
  exact listLE_ymd hv hv'

theorem dbm_add_le {L : Bool} {m d : Nat} (hm1 : 1 ≤ m) (hm : m ≤ 12)
    (hd : d ≤ monthLength L m) :
    daysBeforeMonth L m + d ≤ 365 + (if L then 1 else 0) := by
  have key : ∀ (L : Bool), ∀ m, m < 13 → ∀ d, d < 32 →
      1 ≤ m → d ≤ monthLength L m →
      daysBeforeMonth L m + d ≤ 365 + (if L then 1 else 0) := by decide
  have hlen := monthLength_le (L := L) hm
  exact key L m (by omega) d (by omega) hm1 hd

theorem dbm_mono {L : Bool} {m m' : Nat} (hm1 : 1 ≤ m) (h : m < m')
    (hm' : m' ≤ 12) :
    daysBeforeMonth L m + monthLength L m ≤ daysBeforeMonth L m' := by
  have key : ∀ (L : Bool), ∀ m, m < 13 → ∀ m', m' < 13 → 1 ≤ m → m < m' →
      daysBeforeMonth L m + monthLength L m ≤ daysBeforeMonth L m' := by decide
  exact key L m (by omega) m' (by omega) hm1 h

theorem dby_mono {y y' : Nat} (h : y ≤ y') :
    daysBeforeYear y ≤ daysBeforeYear y' := by
  unfold daysBeforeYear
  have hab : y - 1 ≤ y' - 1 := by omega
  have k2 : (y' - 1) / 100 - (y - 1) / 100 ≤ (y' - 1) - (y - 1) := by omega
  have k3 : (y - 1) / 4 ≤ (y' - 1) / 4 := Nat.div_le_div_right hab
  have k4 : (y - 1) / 400 ≤ (y' - 1) / 400 := Nat.div_le_div_right hab
  have k1 : (y - 1) / 100 ≤ (y - 1) / 4 := by omega
  have k1' : (y' - 1) / 100 ≤ (y' - 1) / 4 := by omega
  generalize (y - 1) / 4 = e4 at *
  generalize (y' - 1) / 4 = f4 at *
  generalize (y - 1) / 100 = e100 at *
  generalize (y' - 1) / 100 = f100 at *
  generalize (y - 1) / 400 = e400 at *
  generalize (y' - 1) / 400 = f400 at *
  omega

theorem dby_next {y : Nat} (h1 : 1 ≤ y) :
    daysBeforeYear y + 365 + (if isLeap y then 1 else 0) ≤
      daysBeforeYear (y + 1) := by
  unfold daysBeforeYear isLeap
  by_cases h4 : y % 4 = 0
  · by_cases h100 : y % 100 = 0
    · by_cases h400 : y % 400 = 0
      · simp only [h4, h100, h400]
        simp
        omega
      · simp only [h4, h100]
        simp [h400]
        omega
    · simp only [h4]
      simp [h100]
      omega
  · simp [h4]
    omega

theorem toOrdinal_lt {y m d y' m' d' : Nat}
    (hv : validYMD y m d) (hv' : validYMD y' m' d')
    (hlex : y < y' ∨ (y = y' ∧ (m < m' ∨ (m = m' ∧ d < d')))) :
    toOrdinal y m d < toOrdinal y' m' d' := by
  obtain ⟨h1, h2, h3, h4, h5, h6⟩ := hv
  obtain ⟨h1', h2', h3', h4', h5', h6'⟩ := hv'
  unfold toOrdinal
  rcases hlex with hy | ⟨rfl, hm | ⟨rfl, hd⟩⟩
  · have a1 := dbm_add_le (L := isLeap y) h3 h4 h6
    have a2 := dby_next (y := y) h1
    have a3 := dby_mono (show y + 1 ≤ y' by omega)
    omega
  · have b1 := dbm_mono (L := isLeap y) h3 hm h4'
    omega
  · omega

theorem toOrdinal_le_iff {y m d y' m' d' : Nat}
    (hv : validYMD y m d) (hv' : validYMD y' m' d') :
    toOrdinal y m d ≤ toOrdinal y' m' d' ↔
      (y < y' ∨ (y = y' ∧ (m < m' ∨ (m = m' ∧ d ≤ d')))) := by
  constructor
  · intro hle
    by_contra hnot
    have hswap : y' < y ∨ (y' = y ∧ (m' < m ∨ (m' = m ∧ d' < d))) := by omega
    exact absurd hle (not_le.mpr (toOrdinal_lt hv' hv hswap))
  · intro hlex
    have hsplit : (y < y' ∨ (y = y' ∧ (m < m' ∨ (m = m' ∧ d < d')))) ∨
        (y = y' ∧ m = m' ∧ d = d') := by omega
    rcases hsplit with hstrict | ⟨rfl, rfl, rfl⟩
    · exact le_of_lt (toOrdinal_lt hv hv' hstrict)
    · exact le_refl _

/-- On canonical date strings, Python's raw string comparison agrees with
the chronological comparison of the denoted dates. -/
theorem strLE_iff_toOrdinal {y m d y' m' d' : Nat}
    (hv : validYMD y m d) (hv' : validYMD y' m' d') :
    (strLE (formatYMD y m d) (formatYMD y' m' d') = true) ↔
      toOrdinal y m d ≤ toOrdinal y' m' d' :=
  (strLE_format hv hv').trans (toOrdinal_le_iff hv hv').symm

theorem dateVal_format {y m d : Nat} (hv : validYMD y m d) :
    dateVal (formatYMD y m d) = toOrdinal y m d := by
  unfold dateVal
  rw [parseYMD_formatYMD hv]

/-- The boolean conflict test the server runs on raw strings coincides, on
canonical date strings, with the half-open overlap of the denoted date
ranges. -/
theorem blocksRoom_iff {b : Booking} {rid : String} {y1 m1 d1 y2 m2 d2 : Nat}
    (hv1 : validYMD y1 m1 d1) (hv2 : validYMD y2 m2 d2)
    (hbin : canonicalDate b.check_in) (hbout : canonicalDate b.check_out) :
    blocksRoom rid (formatYMD y1 m1 d1) (formatYMD y2 m2 d2) b = true ↔
      (b.room_id = rid ∧ (b.status = "confirmed" ∨ b.status = "pending") ∧
        rangesOverlap b.check_in b.check_out
          (formatYMD y1 m1 d1) (formatYMD y2 m2 d2)) := by
  obtain ⟨yb, mb, db, hvb, hb⟩ := hbin
  obtain ⟨yc, mc, dc, hvc, hc⟩ := hbout
  unfold blocksRoom datesConflict rangesOverlap
  rw [hb, hc, dateVal_format hvb, dateVal_format hvc, dateVal_format hv1,
    dateVal_format hv2]
  simp only [Bool.and_eq_true, beq_iff_eq, Bool.or_eq_true, Bool.not_eq_true',
    Bool.or_eq_false_iff]
  constructor
  · rintro ⟨⟨hroom, hstatus⟩, h1f, h2f⟩
    refine ⟨hroom, hstatus, ?_⟩
    rintro (hc1 | hc2)
    · exact absurd ((strLE_iff_toOrdinal hvc hv1).mpr hc1) (by simp [h2f])
    · exact absurd ((strLE_iff_toOrdinal hv2 hvb).mpr hc2) (by simp [h1f])
  · rintro ⟨hroom, hstatus, hov⟩
    refine ⟨⟨hroom, hstatus⟩, ?_, ?_⟩
    · cases hE : strLE (formatYMD y2 m2 d2) (formatYMD yb mb db) with
      | false => rfl
      | true => exact absurd (Or.inr ((strLE_iff_toOrdinal hv2 hvb).mp hE)) hov
    · cases hE : strLE (formatYMD yc mc dc) (formatYMD y1 m1 d1) with
      | false => rfl
      | true => exact absurd (Or.inl ((strLE_iff_toOrdinal hvc hv1).mp hE)) hov

/-- C1: given that the hotel and room exist, the room's available flag is
true, the request carries canonical date strings of a valid (positive
length) range, and the ledger's date strings are canonical, `book_hotel`
returns a Conflict error if and only if some booking in the ledger for the
same room with status pending or confirmed has a half-open date range that
overlaps the requested half-open range. -/
theorem book_hotel_conflict_iff (st : ServerState)
    (hid rid gn ge ci co nid : String) (hotel : Hotel) (room : Room)
    (y1 m1 d1 y2 m2 d2 : Nat)
    (hh : st.hotels.find? (fun h => h.id == hid) = some hotel)
    (hr : st.rooms.find? (fun r => r.id == rid && r.hotel_id == hid) = some room)
    (hav : room.available = true)
    (hv1 : validYMD y1 m1 d1) (hv2 : validYMD y2 m2 d2)
    (hci : ci = formatYMD y1 m1 d1) (hco : co = formatYMD y2 m2 d2)
    (hrange : toOrdinal y1 m1 d1 < toOrdinal y2 m2 d2)
    (hledger : ∀ b ∈ st.bookings,
      canonicalDate b.check_in ∧ canonicalDate b.check_out) :
    ((∃ ds, (book_hotel st hid rid gn ge ci co nid).1 = .conflict ds) ↔
      ∃ b ∈ st.bookings, b.room_id = rid ∧
        (b.status = "confirmed" ∨ b.status = "pending") ∧
        rangesOverlap b.check_in b.check_out ci co) ∧
    (∀ ds, (book_hotel st hid rid gn ge ci co nid).1 = .conflict ds →
      ds = (st.bookings.filter fun b =>
          decide (b.room_id = rid) &&
          (decide (b.status = "confirmed") || decide (b.status = "pending")) &&
          decide (rangesOverlap b.check_in b.check_out ci co)).map
        fun b => (b.check_in, b.check_out)) := by
  subst hci hco
  have hfilter : (st.bookings.filter
        (blocksRoom rid (formatYMD y1 m1 d1) (formatYMD y2 m2 d2))) =
      (st.bookings.filter fun b =>
        decide (b.room_id = rid) &&
        (decide (b.status = "confirmed") || decide (b.status = "pending")) &&
        decide (rangesOverlap b.check_in b.check_out
          (formatYMD y1 m1 d1) (formatYMD y2 m2 d2))) := by
    refine List.filter_congr ?_
    intro b hbmem
    obtain ⟨hbin, hbout⟩ := hledger b hbmem
    rw [Bool.eq_iff_iff]
    rw [blocksRoom_iff hv1 hv2 hbin hbout]
    simp [and_assoc]
  unfold book_hotel
  rw [hh, hr]
  dsimp only
  simp only [hav, Bool.not_true, Bool.false_eq_true, if_false]
  rw [parseYMD_formatYMD hv1, parseYMD_formatYMD hv2]
  dsimp only
  rw [if_neg (show ¬ ((toOrdinal y2 m2 d2 : ℤ) - (toOrdinal y1 m1 d1 : ℤ) ≤ 0)
    from by omega)]
  by_cases hc : (st.bookings.filter
      (blocksRoom rid (formatYMD y1 m1 d1) (formatYMD y2 m2 d2))).isEmpty
  · rw [if_pos hc]
    simp only [List.isEmpty_iff, List.filter_eq_nil_iff] at hc
    refine ⟨?_, ?_⟩
    · constructor
      · rintro ⟨ds, hds⟩
        cases hds
      · rintro ⟨b, hbmem, hroom, hstatus, hov⟩
        obtain ⟨hbin, hbout⟩ := hledger b hbmem
        exact absurd
          ((blocksRoom_iff hv1 hv2 hbin hbout).mpr ⟨hroom, hstatus, hov⟩)
          (by simpa using hc b hbmem)
    · intro ds hds
      cases hds
  · rw [if_neg hc]
    refine ⟨⟨?_, ?_⟩, ?_⟩
    · intro _
      have hne : (st.bookings.filter
          (blocksRoom rid (formatYMD y1 m1 d1) (formatYMD y2 m2 d2))) ≠ [] := by
        intro hnil
        exact hc (by simp [hnil])
      obtain ⟨b, hbmem⟩ := List.exists_mem_of_ne_nil _ hne
      obtain ⟨hbin, hblocks⟩ := List.mem_filter.mp hbmem
      obtain ⟨hcin, hcout⟩ := hledger b hbin
      obtain ⟨hroom, hstatus, hov⟩ :=
        (blocksRoom_iff hv1 hv2 hcin hcout).mp hblocks
      exact ⟨b, hbin, hroom, hstatus, hov⟩
    · intro _
      exact ⟨_, rfl⟩
    · intro ds hds
      cases hds with
      | refl => rw [hfilter]

theorem book_hotel_conflict_iff_witness :
    ∃ ds, (book_hotel exState "hotel_x" "room_x" "Bob" "bob@example.com"
      "2025-07-26" "2025-07-28" "new_id").1 = BookResult.conflict ds :=
  (book_hotel_conflict_iff exState "hotel_x" "room_x" "Bob" "bob@example.com"
    "2025-07-26" "2025-07-28" "new_id" exHotel exRoom 2025 7 26 2025 7 28
    (by decide) (by decide) (by decide) (by decide) (by decide)
    (by decide) (by decide) (by decide)
    (fun b hb => by
      have hbx : b = exBooking := by
        simpa [exState] using hb
      subst hbx
      exact ⟨⟨2025, 7, 25, by decide, by decide⟩,
             ⟨2025, 7, 27, by decide, by decide⟩⟩)).1.mpr
    ⟨exBooking, by decide, rfl, Or.inl rfl, by decide⟩

end HotelBooking
